import Mathlib

/-!
Verification of the UHJ encoder (`src/utils/uhjencoder.cpp`) and the PipeWire
backend (`src/alc/backends/pipewire.cpp`).

Sample values are modelled as exact rationals (`ℚ`).  Every identity proved
about the encoder is an identity of the computation's dataflow: both sides of
each equation denote the very operations the code performs, with the literal
decimal coefficients of the source, so the statements are independent of the
rounding of any particular arithmetic.  Buffers are modelled as total
functions `ℕ → ℚ` together with an explicit bounds check (`encodeGuards`)
that records, for each array access the code performs, the capacity of the
accessed array; `encode` takes the out-of-bounds branch (`none`) when any
check fails.
-/

namespace Uhj

/-- Compile-time block capacity `BufferLineSize` from `uhjencoder.cpp`. -/
def bufferLineSize : ℕ := 1024

/-- `UhjEncoder::sFilterDelay`. -/
def sFilterDelay : ℕ := 1024

/-- Size of `mWXHistory` (`sFilterDelay*2 - 1`). -/
def histSize : ℕ := 2 * sFilterDelay - 1

/-- Size of `mTemp` (`BufferLineSize + sFilterDelay*2`). -/
def tempSize : ℕ := bufferLineSize + 2 * sFilterDelay

/-- Size of the extended `mS`/`mD` buffers (`BufferLineSize + sFilterDelay`). -/
def extSize : ℕ := bufferLineSize + sFilterDelay

/-- Coefficient `0.9396926` applied to W in the mid signal. -/
def cSW : ℚ := 9396926 / 10000000

/-- Coefficient `0.1855740` applied to X in the mid signal. -/
def cSX : ℚ := 1855740 / 10000000

/-- Coefficient `0.6554516` applied to Y in the side signal. -/
def cDY : ℚ := 6554516 / 10000000

/-- Coefficient `-0.3420201` applied to W in the phase-shifted side term. -/
def cDW : ℚ := -3420201 / 10000000

/-- Coefficient `0.5098604` applied to X in the phase-shifted side term. -/
def cDX : ℚ := 5098604 / 10000000

/-- State of a `UhjEncoder`: the extended S and D delay buffers, the FIR
history `mWXHistory`, and the scratch buffer `mTemp` (a member, so its
contents persist between calls). -/
structure UhjEncoderState where
  mS : ℕ → ℚ
  mD : ℕ → ℚ
  mWXHistory : ℕ → ℚ
  mTemp : ℕ → ℚ

/-- A freshly value-initialized `UhjEncoder` (all buffers zero). -/
def initState : UhjEncoderState :=
  ⟨fun _ => 0, fun _ => 0, fun _ => 0, fun _ => 0⟩

/-- Modelled from the spec: `PhaseShifterT<sFilterDelay*2>::processAccum` lives
in `phase_shifter.h`, which is not among the sources.  Per spec §4.1 it is a
fixed-length all-pass FIR bank with a fixed group delay that accumulates into
the output buffer and is a pure function of (history, new input).  It is
modelled as an arbitrary FIR with `2*sFilterDelay` taps: the contribution
accumulated into output sample `i` is `∑ t, taps t * src (i + t)`. -/
def pshiftAccumAt (taps : ℕ → ℚ) (src : ℕ → ℚ) (i : ℕ) : ℚ :=
  ∑ t ∈ Finset.range (2 * sFilterDelay), taps t * src (i + t)

/-- The extended S buffer after the `S = 0.9396926*W + 0.1855740*X` transform,
which writes `SamplesToDo` samples starting at offset `sFilterDelay`. -/
def sExt (st : UhjEncoderState) (W X : ℕ → ℚ) (n : ℕ) : ℕ → ℚ :=
  fun k =>
    if sFilterDelay ≤ k ∧ k < sFilterDelay + n then
      cSW * W (k - sFilterDelay) + cSX * X (k - sFilterDelay)
    else st.mS k

/-- The extended D buffer after the `D = 0.6554516*Y` transform, which writes
`SamplesToDo` samples starting at offset `sFilterDelay`. -/
def dMid (st : UhjEncoderState) (Y : ℕ → ℚ) (n : ℕ) : ℕ → ℚ :=
  fun k =>
    if sFilterDelay ≤ k ∧ k < sFilterDelay + n then
      cDY * Y (k - sFilterDelay)
    else st.mD k

/-- `mTemp` after copying `mWXHistory` to its front and writing the
`-0.3420201*W + 0.5098604*X` transform of the new input after it.  Positions
beyond `histSize + n` keep their previous contents. -/
def tempBuf (st : UhjEncoderState) (W X : ℕ → ℚ) (n : ℕ) : ℕ → ℚ :=
  fun k =>
    if k < histSize then st.mWXHistory k
    else if k < histSize + n then
      cDW * W (k - histSize) + cDX * X (k - histSize)
    else st.mTemp k

/-- The new `mWXHistory`: `std::copy_n(mTemp.cbegin()+SamplesToDo, mWXHistory.size(), ...)`. -/
def newHistory (st : UhjEncoderState) (W X : ℕ → ℚ) (n : ℕ) : ℕ → ℚ :=
  fun j => if j < histSize then tempBuf st W X n (n + j) else st.mWXHistory j

/-- The extended D buffer after `PShift.processAccum({mD.data(), SamplesToDo}, mTemp.data())`
accumulated the filtered scratch signal into its first `SamplesToDo` entries. -/
def dExt (taps : ℕ → ℚ) (st : UhjEncoderState) (W X Y : ℕ → ℚ) (n : ℕ) : ℕ → ℚ :=
  fun k =>
    if k < n then dMid st Y n k + pshiftAccumAt taps (tempBuf st W X n) k
    else dMid st Y n k

/-- `left[i] = (mS[i] + mD[i]) * 0.5f`. -/
def leftOut (taps : ℕ → ℚ) (st : UhjEncoderState) (W X Y : ℕ → ℚ) (n i : ℕ) : ℚ :=
  (sExt st W X n i + dExt taps st W X Y n i) * (1 / 2)

/-- `right[i] = (mS[i] - mD[i]) * 0.5f`. -/
def rightOut (taps : ℕ → ℚ) (st : UhjEncoderState) (W X Y : ℕ → ℚ) (n i : ℕ) : ℚ :=
  (sExt st W X n i - dExt taps st W X Y n i) * (1 / 2)

/-- `std::copy(b.cbegin()+SamplesToDo, b.cbegin()+SamplesToDo+sFilterDelay, b.begin())`:
the trailing `sFilterDelay` samples move to the front. -/
def shiftBuf (b : ℕ → ℚ) (n : ℕ) : ℕ → ℚ :=
  fun k => if k < sFilterDelay then b (n + k) else b k

/-- The encoder state at the end of `UhjEncoder::encode`. -/
def encodeState (taps : ℕ → ℚ) (st : UhjEncoderState) (W X Y : ℕ → ℚ) (n : ℕ) :
    UhjEncoderState where
  mS := shiftBuf (sExt st W X n) n
  mD := shiftBuf (dExt taps st W X Y n) n
  mWXHistory := newHistory st W X n
  mTemp := tempBuf st W X n

/-- Output spans and final state of one `encode` call. -/
structure EncodeResult where
  left : ℕ → ℚ
  right : ℕ → ℚ
  state : UhjEncoderState

/-- The result of one `encode` call, assuming every access is in bounds. -/
def encodeResult (taps : ℕ → ℚ) (st : UhjEncoderState) (W X Y : ℕ → ℚ) (n : ℕ) :
    EncodeResult where
  left := leftOut taps st W X Y n
  right := rightOut taps st W X Y n
  state := encodeState taps st W X Y n

/-- One bound per array access in `UhjEncoder::encode`, in source order:
reads of the three input lines of capacity `bufferLineSize`; the S transform
writing `[sFilterDelay, sFilterDelay+n)` of `mS`; the D transform writing the
same range of `mD`; the history copy into `mTemp[0, histSize)`; the WX
transform writing `mTemp[histSize, histSize+n)`; the history save reading
`mTemp[n, n+histSize)`; `processAccum` reading `mTemp[i, i+2*sFilterDelay)`
and writing `mD[i]` for `i < n`; the output loops writing `left`/`right`
spans of capacity `bufferLineSize` and reading `mS`/`mD`; and the final
copies reading `[n, n+sFilterDelay)` of `mS`/`mD` and writing their fronts. -/
def encodeGuards (n : ℕ) : Prop :=
  n ≤ bufferLineSize ∧
  sFilterDelay + n ≤ extSize ∧
  sFilterDelay + n ≤ extSize ∧
  histSize ≤ tempSize ∧
  histSize + n ≤ tempSize ∧
  n + histSize ≤ tempSize ∧
  (n + (2 * sFilterDelay - 1) ≤ tempSize ∧ n ≤ extSize) ∧
  (n ≤ bufferLineSize ∧ n ≤ extSize) ∧
  (n + sFilterDelay ≤ extSize ∧ sFilterDelay ≤ extSize)

instance (n : ℕ) : Decidable (encodeGuards n) := by
  unfold encodeGuards; infer_instance

/-- `UhjEncoder::encode`, with the out-of-bounds branch made explicit. -/
def encode (taps : ℕ → ℚ) (st : UhjEncoderState) (W X Y : ℕ → ℚ) (n : ℕ) :
    Option EncodeResult :=
  if encodeGuards n then some (encodeResult taps st W X Y n) else none

/-- An all-zero input channel line. -/
def zeroCh : ℕ → ℚ := fun _ => 0

/-- A unit impulse in the first sample of a channel line. -/
def impulseW : ℕ → ℚ := fun i => if i = 0 then 1 else 0

/-- The state after the lead-in call: `filterDelay` zero samples fed to a
fresh encoder. -/
def leadInState (taps : ℕ → ℚ) : UhjEncoderState :=
  encodeState taps initState zeroCh zeroCh zeroCh bufferLineSize

/-- The state after the impulse call: a unit impulse on W (X = Y = 0) fed
after the lead-in. -/
def impulseState (taps : ℕ → ℚ) : UhjEncoderState :=
  encodeState taps (leadInState taps) impulseW zeroCh zeroCh bufferLineSize

/-- The four ambisonic gains produced by `GenCoeffs` (W, X, Y, Z). -/
structure AmbiCoeffs where
  c0 : ℝ
  c1 : ℝ
  c2 : ℝ
  c3 : ℝ

/-- The literal `1.41421356237f` scale (+3dB of FuMa) used by `GenCoeffs`. -/
def fumaScale : ℚ := 141421356237 / 100000000000

/-- `GenCoeffs(x, y, z)`: `coeffs[0]=1`, `coeffs[i]=1.41421356237*…`. -/
noncomputable def genCoeffs (x y z : ℝ) : AmbiCoeffs :=
  ⟨1, (fumaScale : ℝ) * x, (fumaScale : ℝ) * y, (fumaScale : ℝ) * z⟩

/-- Modelled from the spec: `Deg2Rad` comes from `math_defs.h`, which is not
among the sources; §3 specifies azimuth/elevation in radians with azimuth
counter-clockwise from front, so degrees scale by `π/180`. -/
noncomputable def deg2Rad (x : ℝ) : ℝ := x * (Real.pi / 180)

/-- The call-site combination in `main`:
`GenCoeffs(cos(az)*cos(el), sin(az)*cos(el), sin(el))`. -/
noncomputable def speakerCoeffs (az el : ℝ) : AmbiCoeffs :=
  genCoeffs (Real.cos az * Real.cos el) (Real.sin az * Real.cos el) (Real.sin el)

/-- `StereoMap[0]`: the left speaker at azimuth `Deg2Rad(30)`, elevation 0. -/
noncomputable def stereoLeftCoeffs : AmbiCoeffs :=
  speakerCoeffs (deg2Rad 30) (deg2Rad 0)

/-- `StereoMap[1]`: the right speaker at azimuth `Deg2Rad(-30)`, elevation 0. -/
noncomputable def stereoRightCoeffs : AmbiCoeffs :=
  speakerCoeffs (deg2Rad (-30)) (deg2Rad 0)

end Uhj

namespace Pw

/-- C strings, modelled as character lists so that prefix/suffix reasoning
(`strncmp` against `MonitorPrefix`) is exact. -/
abbrev Str := List Char

/-- `MonitorPrefix` ("Monitor of "). -/
def monitorOf : Str := "Monitor of ".toList

/-- `al::backend_error` values raised by the backend. -/
inductive BackendError where
  | NoDevice
  | DeviceError
deriving DecidableEq

/-- `BackendType` of a probe or session. -/
inductive BackendType where
  | Playback
  | Capture
deriving DecidableEq

/-- One entry of the enumerated-device list (`struct DeviceNode`).
`mChannels` keeps the `DevFmtChannels` value as a numeral (255 is the
`InvalidChannelConfig` sentinel). -/
structure DeviceNode where
  mName : Str
  mDevName : Str
  mId : ℕ
  mCapture : Bool
  mIsHeadphones : Bool
  mSampleRate : ℕ
  mChannels : ℕ
deriving DecidableEq

/-- The shared registry state: `DeviceList`, `DefaultSinkDev`,
`DefaultSourceDev`. -/
structure Registry where
  deviceList : List DeviceNode
  defaultSinkDev : Str
  defaultSourceDev : Str
deriving DecidableEq

/-- Frame count chosen by `PipeWirePlayback::outputCallback` after a
successful dequeue: start from the rate-match `size` if a rate-match area is
set, else the configured update size, then clamp by each used channel's
`maxsize/sizeof(float)`; the used channels are the first
`min(mNumChannels, n_datas)`. -/
def outputFrameCount (rateMatch : Option ℕ) (updateSize numChannels : ℕ)
    (maxsizes : List ℕ) : ℕ :=
  ((maxsizes.take (min numChannels maxsizes.length)).map (fun m => m / 4)).foldl
    min (rateMatch.getD updateSize)

/-- Nanoseconds per second, the `std::chrono` conversion factor. -/
def nsPerSec : ℤ := 1000000000

/-- The fields of `pw_time` used by `getClockLatency`, in integer
nanosecond/tick units. -/
structure PwTimeInfo where
  now : ℤ
  ticks : ℤ
  rateNum : ℤ
  rateDenom : ℤ
  delay : ℤ

/-- The returned `ClockLatency` record. -/
structure ClockLatency where
  ClockTime : ℤ
  Latency : ℤ

/-- The stream tick time in nanoseconds, including the accumulated
`mTimeBase` carried across stream re-creations:
`mTimeBase + seconds{ticks/denom}*num + nanoseconds{seconds{ticks%denom}*num}/denom`.
C++ integer division truncates toward zero (`Int.tdiv`/`Int.tmod`). -/
def streamTickNs (timeBase : ℤ) (ptime : PwTimeInfo) : ℤ :=
  timeBase + ptime.ticks.tdiv ptime.rateDenom * ptime.rateNum * nsPerSec
    + (ptime.ticks.tmod ptime.rateDenom * ptime.rateNum * nsPerSec).tdiv ptime.rateDenom

/-- The server-reported buffering delay in nanoseconds:
`nanoseconds{seconds{ptime.delay}*num}/denom`. -/
def serverDelayNs (ptime : PwTimeInfo) : ℤ :=
  (ptime.delay * ptime.rateNum * nsPerSec).tdiv ptime.rateDenom

/-- `ptime.now` after the dummy-value fix-up: when no tick report exists
(`rate.denom < 1`) the code sets `ptime.now = monoclock`. -/
def adjNow (ptime : PwTimeInfo) (monoclock : ℤ) : ℤ :=
  if ptime.rateDenom < 1 then monoclock else ptime.now

/-- `curtic`: the mixer time itself in the no-tick fallback, else the stream
tick time including the accumulated base. -/
def adjCurtic (ptime : PwTimeInfo) (mixtime timeBase : ℤ) : ℤ :=
  if ptime.rateDenom < 1 then mixtime else streamTickNs timeBase ptime

/-- `delay` before the adjustments: `BufferSize/Frequency` as a dummy in the
no-tick fallback, else the server-reported delay. -/
def adjDelay (ptime : PwTimeInfo) (bufferSize frequency : ℕ) : ℤ :=
  if ptime.rateDenom < 1 then ((bufferSize : ℤ) * nsPerSec).tdiv (frequency : ℤ)
  else serverDelayNs ptime

/-- `PipeWirePlayback::getClockLatency`: adds `mixtime - curtic` when the
mixer is ahead, subtracts the wall-clock time since the tick report, and
clamps the result at zero. -/
def getClockLatency (ptime : PwTimeInfo) (mixtime monoclock timeBase : ℤ)
    (bufferSize frequency : ℕ) : ClockLatency where
  ClockTime := mixtime
  Latency :=
    max ((if adjCurtic ptime mixtime timeBase < mixtime then
            adjDelay ptime bufferSize frequency
              + (mixtime - adjCurtic ptime mixtime timeBase)
          else adjDelay ptime bufferSize frequency)
        - (monoclock - adjNow ptime monoclock)) 0

/-- The explicit-name match of `PipeWirePlayback::open`:
`!n.mCapture && n.mName == name`. -/
def playbackMatchName (name : Str) (n : DeviceNode) : Bool :=
  !n.mCapture && n.mName == name

/-- The explicit-name branch of `PipeWirePlayback::open` up to target
resolution: it only reads the registry, which is returned unchanged. -/
def playbackOpenName (reg : Registry) (name : Str) :
    Except BackendError (ℕ × Str) × Registry :=
  (match reg.deviceList.find? (playbackMatchName name) with
    | some n => .ok (n.mId, n.mName)
    | none => .error .NoDevice,
   reg)

/-- The explicit-name match of `PipeWireCapture::open`:
`n.mCapture && n.mName == name`. -/
def captureMatchName (name : Str) (n : DeviceNode) : Bool :=
  n.mCapture && n.mName == name

/-- The monitor fallback match: a playback node whose name is `name` with
the `"Monitor of "` prefix removed. -/
def monitorSinkMatch (name : Str) (n : DeviceNode) : Bool :=
  !n.mCapture && n.mName == name.drop monitorOf.length

/-- The explicit-name branch of `PipeWireCapture::open` up to target
resolution: exact capture-name match, else (when the name starts with
`"Monitor of "`) a sink whose name is the remainder; the registry is only
read. -/
def captureOpenName (reg : Registry) (name : Str) :
    Except BackendError (ℕ × Str) × Registry :=
  (match reg.deviceList.find? (captureMatchName name) with
    | some n => .ok (n.mId, name)
    | none =>
      if name.take monitorOf.length == monitorOf then
        match reg.deviceList.find? (monitorSinkMatch name) with
        | some n => .ok (n.mId, name)
        | none => .error .NoDevice
      else .error .NoDevice,
   reg)

/-- The supported-interval test of `parse_srate`:
`rate >= MIN_OUTPUT_RATE && rate <= MAX_OUTPUT_RATE` (the two bounds are
compile-time constants defined outside these sources, so they are
parameters here). -/
def inRate (lo hi r : ℤ) : Bool :=
  decide (lo ≤ r) && decide (r ≤ hi)

/-- The value/choice layouts `parse_srate` distinguishes after
`spa_pod_get_values`, for an Int-typed pod. -/
inductive SRateChoice where
  | choiceRange (vals : List ℤ)
  | choiceEnum (vals : List ℤ)
  | choiceNone (vals : List ℤ)
  | choiceOther (choiceType : ℕ) (vals : List ℤ)

/-- `clampi(val, min, max) = mini(max, maxi(min, val))`. -/
def clampi (v lo hi : ℤ) : ℤ := min hi (max lo v)

/-- `parse_srate` on an Int-typed sample-rate pod: a default/min/max range
of exactly 3 values stores the clamped default; a non-empty enumerated list
stores the first listed value inside the interval (the declared default is
`vals[0]` and is considered first) or leaves the node unchanged; a single
(`SPA_CHOICE_None`) value stores the clamped value; any other choice type is
logged and ignored. -/
def parse_srate (lo hi : ℤ) (node : DeviceNode) (c : SRateChoice) : DeviceNode :=
  match c with
  | .choiceRange vals =>
      if vals.length ≠ 3 then node
      else { node with mSampleRate := (clampi vals.headI lo hi).toNat }
  | .choiceEnum vals =>
      if vals.length = 0 then node
      else
        match vals.find? (inRate lo hi) with
        | some r => { node with mSampleRate := r.toNat }
        | none => node
  | .choiceNone vals =>
      if vals.length ≠ 1 then node
      else { node with mSampleRate := (clampi vals.headI lo hi).toNat }
  | .choiceOther _ _ => node

/-- The ordering `sort_devnode` compares: ascending `mId`. -/
def byId (a b : DeviceNode) : Prop := a.mId ≤ b.mId

instance : DecidableRel byId := fun a b => Nat.decLe a.mId b.mId

instance : IsTotal DeviceNode byId := ⟨fun a b => Nat.le_total a.mId b.mId⟩

instance : IsTrans DeviceNode byId := ⟨fun _ _ _ => Nat.le_trans⟩

/-- `std::sort(DeviceList.begin(), DeviceList.end(), sort_devnode)` with
`sort_devnode` comparing `mId`; `std::sort` is unstable, so any id-ordered
permutation is a faithful result — modelled with insertion sort. -/
def sortById (l : List DeviceNode) : List DeviceNode :=
  l.insertionSort byId

/-- The list seen by the probe loops, which visit every element except the
iterator `defmatch` (the first element matching the default device name):
remove the first `p`-match, if any. -/
def nonDefault {α : Type} (p : α → Bool) : List α → List α
  | [] => []
  | a :: as => if p a then as else a :: nonDefault p as

/-- The name entry the playback probe emits for the `defmatch` result. -/
def defaultSinkEntry : Option DeviceNode → List Str
  | some n => [n.mName]
  | none => []

/-- The name entry the capture probe emits for the `defmatch` result: a
`"Monitor of "` prefix is prepended when the default is a playback node. -/
def defaultSourceEntry : Option DeviceNode → List Str
  | some n => if n.mCapture then [n.mName] else [monitorOf ++ n.mName]
  | none => []

/-- `PipeWireBackendFactory::probe(BackendType::Playback)` name list: the
default sink's entry first (when its device name matches), then every other
playback node. -/
def playbackProbeNames (l : List DeviceNode) (defSink : Str) : List Str :=
  defaultSinkEntry (l.find? (fun n => n.mDevName == defSink))
  ++ ((nonDefault (fun n => n.mDevName == defSink) l).filter
        (fun n => !n.mCapture)).map (fun n => n.mName)

/-- `PipeWireBackendFactory::probe(BackendType::Capture)` name list: the
default source's entry first, then every other capture node, then a
`"Monitor of "` pseudo-device for every other playback node. -/
def captureProbeNames (l : List DeviceNode) (defSource : Str) : List Str :=
  defaultSourceEntry (l.find? (fun n => n.mDevName == defSource))
  ++ ((nonDefault (fun n => n.mDevName == defSource) l).filter
        (fun n => n.mCapture)).map (fun n => n.mName)
  ++ ((nonDefault (fun n => n.mDevName == defSource) l).filter
        (fun n => !n.mCapture)).map (fun n => monitorOf ++ n.mName)

/-- `PipeWireBackendFactory::probe`: sorts `DeviceList` in place by id, then
builds the (null-separated, modelled as a list) name string. -/
def probe (reg : Registry) (t : BackendType) : List Str × Registry :=
  (match t with
    | .Playback => playbackProbeNames (sortById reg.deviceList) reg.defaultSinkDev
    | .Capture => captureProbeNames (sortById reg.deviceList) reg.defaultSourceDev,
   { reg with deviceList := sortById reg.deviceList })

/-- A sample playback device node for concrete witnesses. -/
def nodeSpeaker : DeviceNode :=
  ⟨"Speaker".toList, "alsa.out".toList, 9, false, false, 48000, 2⟩

/-- A sample capture device node for concrete witnesses. -/
def nodeMic : DeviceNode :=
  ⟨"Mic".toList, "alsa.in".toList, 5, true, false, 44100, 1⟩

/-- A sample registry (deliberately not sorted by id) for concrete
witnesses. -/
def regSample : Registry :=
  ⟨[nodeSpeaker, nodeMic], "alsa.out".toList, "alsa.in".toList⟩

/-- A sample registry whose default source name resolves to the sink, so the
capture probe's default entry carries the `"Monitor of "` prefix. -/
def regMonitor : Registry :=
  ⟨[nodeSpeaker, nodeMic], "alsa.out".toList, "alsa.out".toList⟩

/-- A name matching no device, for concrete witnesses. -/
def nameNope : Str := "Nope".toList

/-- A sample `pw_time` with a valid rate, for concrete witnesses. -/
def ptimeSample : PwTimeInfo := ⟨1000, 480, 1, 48000, 96⟩

end Pw

namespace Uhj

theorem encodeGuards_of_le (n : ℕ) (hn : n ≤ bufferLineSize) : encodeGuards n := by
  unfold encodeGuards
  unfold bufferLineSize at hn
  simp only [bufferLineSize, sFilterDelay, histSize, tempSize, extSize]
  omega

theorem encode_eq_some (taps : ℕ → ℚ) (st : UhjEncoderState) (W X Y : ℕ → ℚ)
    (n : ℕ) (hn : n ≤ bufferLineSize) :
    encode taps st W X Y n = some (encodeResult taps st W X Y n) := by
  unfold encode
  rw [if_pos (encodeGuards_of_le n hn)]

/-- Claim C1: for every call to `UhjEncoder::encode` with
`SamplesToDo ≤ BufferLineSize`, the output satisfies the fixed UHJ
combination: the mid signal `0.9396926*W[i] + 0.1855740*X[i]` is written into
the extended S buffer after the retained history region, the side signal is
`0.6554516*Y[i]` written at the same offset plus the all-pass-filtered value
of `-0.3420201*W[i] + 0.5098604*X[i]` accumulated into the output window, and
every output sample obeys `Left[i] = (S[i] + D[i])/2` and
`Right[i] = (S[i] - D[i])/2` over the extended buffers, for `i < SamplesToDo`. -/
theorem encode_uhj_combination (taps : ℕ → ℚ) (st : UhjEncoderState)
    (W X Y : ℕ → ℚ) (n : ℕ) (hn : n ≤ bufferLineSize) (i : ℕ) (hi : i < n) :
    (encodeResult taps st W X Y n).left i
        = (sExt st W X n i + dExt taps st W X Y n i) * (1 / 2)
    ∧ (encodeResult taps st W X Y n).right i
        = (sExt st W X n i - dExt taps st W X Y n i) * (1 / 2)
    ∧ sExt st W X n (sFilterDelay + i) = cSW * W i + cSX * X i
    ∧ dExt taps st W X Y n (sFilterDelay + i) = cDY * Y i
    ∧ dExt taps st W X Y n i = st.mD i + pshiftAccumAt taps (tempBuf st W X n) i
    ∧ tempBuf st W X n (histSize + i) = cDW * W i + cDX * X i := by
  unfold bufferLineSize at hn
  refine ⟨rfl, rfl, ?_, ?_, ?_, ?_⟩
  · unfold sExt
    rw [if_pos ⟨Nat.le_add_right _ _, by omega⟩, Nat.add_sub_cancel_left]
  · unfold dExt dMid sFilterDelay
    rw [if_neg (by omega), if_pos ⟨Nat.le_add_right _ _, by omega⟩,
      Nat.add_sub_cancel_left]
  · unfold dExt dMid sFilterDelay
    rw [if_pos hi, if_neg (by omega)]
  · unfold tempBuf histSize sFilterDelay
    rw [if_neg (by omega), if_pos (by omega), Nat.add_sub_cancel_left]

theorem encode_uhj_combination_witness :
    (1 : ℕ) ≤ bufferLineSize ∧ (0 : ℕ) < 1 ∧
    ((encodeResult (fun _ => 0) initState (fun _ => 0) (fun _ => 0) (fun _ => 0) 1).left 0
        = (sExt initState (fun _ => 0) (fun _ => 0) 1 0
            + dExt (fun _ => 0) initState (fun _ => 0) (fun _ => 0) (fun _ => 0) 1 0) * (1 / 2)
    ∧ (encodeResult (fun _ => 0) initState (fun _ => 0) (fun _ => 0) (fun _ => 0) 1).right 0
        = (sExt initState (fun _ => 0) (fun _ => 0) 1 0
            - dExt (fun _ => 0) initState (fun _ => 0) (fun _ => 0) (fun _ => 0) 1 0) * (1 / 2)
    ∧ sExt initState (fun _ => 0) (fun _ => 0) 1 (sFilterDelay + 0)
        = cSW * 0 + cSX * 0
    ∧ dExt (fun _ => 0) initState (fun _ => 0) (fun _ => 0) (fun _ => 0) 1 (sFilterDelay + 0)
        = cDY * 0
    ∧ dExt (fun _ => 0) initState (fun _ => 0) (fun _ => 0) (fun _ => 0) 1 0
        = initState.mD 0
          + pshiftAccumAt (fun _ => 0) (tempBuf initState (fun _ => 0) (fun _ => 0) 1) 0
    ∧ tempBuf initState (fun _ => 0) (fun _ => 0) 1 (histSize + 0) = cDW * 0 + cDX * 0) :=
  ⟨by norm_num [bufferLineSize], Nat.one_pos,
    encode_uhj_combination (fun _ => 0) initState (fun _ => 0) (fun _ => 0) (fun _ => 0) 1
      (by norm_num [bufferLineSize]) 0 Nat.one_pos⟩

/-- Claim C2: after `encode` returns, the first `sFilterDelay` samples of the
extended S and D buffers equal the samples that stood at positions
`[SamplesToDo, SamplesToDo + sFilterDelay)` of those buffers at the end of the
call's processing, for every starting state (hence for every sequence of
calls). -/
theorem encode_history_invariant (taps : ℕ → ℚ) (st : UhjEncoderState)
    (W X Y : ℕ → ℚ) (n : ℕ) (_hn : n ≤ bufferLineSize) (k : ℕ)
    (hk : k < sFilterDelay) :
    (encodeState taps st W X Y n).mS k = sExt st W X n (n + k)
    ∧ (encodeState taps st W X Y n).mD k = dExt taps st W X Y n (n + k) := by
  unfold encodeState shiftBuf
  simp only
  rw [if_pos hk, if_pos hk]
  exact ⟨rfl, rfl⟩

theorem encode_history_invariant_witness :
    (1 : ℕ) ≤ bufferLineSize ∧ (0 : ℕ) < sFilterDelay ∧
    ((encodeState (fun _ => 0) initState (fun _ => 0) (fun _ => 0) (fun _ => 0) 1).mS 0
        = sExt initState (fun _ => 0) (fun _ => 0) 1 (1 + 0)
    ∧ (encodeState (fun _ => 0) initState (fun _ => 0) (fun _ => 0) (fun _ => 0) 1).mD 0
        = dExt (fun _ => 0) initState (fun _ => 0) (fun _ => 0) (fun _ => 0) 1 (1 + 0)) :=
  ⟨by norm_num [bufferLineSize], by norm_num [sFilterDelay],
    encode_history_invariant (fun _ => 0) initState (fun _ => 0) (fun _ => 0) (fun _ => 0) 1
      (by norm_num [bufferLineSize]) 0 (by norm_num [sFilterDelay])⟩

theorem tempBuf_initState_zero (n k : ℕ) :
    tempBuf initState zeroCh zeroCh n k = 0 := by
  unfold tempBuf initState zeroCh
  split_ifs <;> norm_num

theorem leadInState_mWXHistory_zero (taps : ℕ → ℚ) (j : ℕ) :
    (leadInState taps).mWXHistory j = 0 := by
  unfold leadInState encodeState newHistory
  simp only
  split_ifs with h
  · exact tempBuf_initState_zero _ _
  · rfl

theorem impulseState_mS_zero (taps : ℕ → ℚ) :
    (impulseState taps).mS 0 = cSW := by
  unfold impulseState encodeState shiftBuf sExt bufferLineSize sFilterDelay
  simp only
  rw [if_pos (by norm_num), if_pos (by norm_num : 1024 ≤ 1024 + 0 ∧ 1024 + 0 < 1024 + 1024)]
  unfold impulseW zeroCh
  norm_num

theorem impulseState_mD_zero (taps : ℕ → ℚ) :
    (impulseState taps).mD 0 = 0 := by
  unfold impulseState encodeState shiftBuf dExt dMid bufferLineSize sFilterDelay
  simp only
  rw [if_pos (by norm_num), if_neg (by norm_num : ¬(1024 + 0 < 1024)),
    if_pos (by norm_num : 1024 ≤ 1024 + 0 ∧ 1024 + 0 < 1024 + 1024)]
  unfold zeroCh
  norm_num

theorem impulseState_temp_eq (taps : ℕ → ℚ) (t : ℕ) (ht : t < 2 * sFilterDelay) :
    tempBuf (impulseState taps) zeroCh zeroCh bufferLineSize t
      = if t = 1023 then cDW else 0 := by
  unfold sFilterDelay at ht
  unfold tempBuf
  by_cases h1 : t < histSize
  · rw [if_pos h1]
    unfold impulseState encodeState newHistory
    simp only
    rw [if_pos h1]
    unfold histSize sFilterDelay at h1
    unfold tempBuf histSize bufferLineSize sFilterDelay
    by_cases h2 : t < 1023
    · rw [if_pos (by omega)]
      rw [if_neg (by omega : ¬t = 1023)]
      exact leadInState_mWXHistory_zero taps (1024 + t)
    · rw [if_neg (by omega), if_pos (by omega)]
      unfold impulseW zeroCh
      by_cases h3 : t = 1023
      · subst h3
        norm_num
      · rw [if_neg (by omega : ¬1024 + t - (2 * 1024 - 1) = 0), if_neg h3]
        norm_num
  · rw [if_neg h1]
    unfold histSize sFilterDelay at h1
    rw [if_pos (by unfold histSize bufferLineSize sFilterDelay; omega)]
    rw [if_neg (by omega : ¬t = 1023)]
    unfold zeroCh
    norm_num

theorem impulseState_accum_zero (taps : ℕ → ℚ) (hc : taps 1023 = 0) :
    pshiftAccumAt taps (tempBuf (impulseState taps) zeroCh zeroCh bufferLineSize) 0 = 0 := by
  unfold pshiftAccumAt
  rw [Finset.sum_eq_single_of_mem 1023
    (Finset.mem_range.mpr (by unfold sFilterDelay; omega))]
  · rw [hc, zero_mul]
  · intro b hb hne
    rw [impulseState_temp_eq taps (0 + b) (by rw [Nat.zero_add]; exact Finset.mem_range.mp hb)]
    rw [if_neg (by omega : ¬0 + b = 1023), mul_zero]

/-- Claim C3: on a freshly constructed encoder, after a block of
`filterDelay` zeros and then a block carrying a unit impulse on W only, the
first output sample of the following zero block (the position of the impulse
shifted by the fixed `filterDelay`-sample latency) is
`Left = Right = 0.9396926/2`; the phase-shift path contributes zero at that
exact position (spec: the modelled FIR tap aligned with it vanishes). -/
theorem encode_impulse_output (taps : ℕ → ℚ) (hc : taps 1023 = 0) :
    leftOut taps (impulseState taps) zeroCh zeroCh zeroCh bufferLineSize 0 = cSW * (1 / 2)
    ∧ rightOut taps (impulseState taps) zeroCh zeroCh zeroCh bufferLineSize 0
        = cSW * (1 / 2) := by
  have hS : sExt (impulseState taps) zeroCh zeroCh bufferLineSize 0 = cSW := by
    unfold sExt
    rw [if_neg (by unfold sFilterDelay; omega)]
    exact impulseState_mS_zero taps
  have hD : dExt taps (impulseState taps) zeroCh zeroCh zeroCh bufferLineSize 0 = 0 := by
    unfold dExt
    rw [if_pos (by unfold bufferLineSize; omega)]
    unfold dMid
    rw [if_neg (by unfold sFilterDelay; omega)]
    rw [impulseState_mD_zero taps, impulseState_accum_zero taps hc]
    norm_num
  unfold leftOut rightOut
  rw [hS, hD, add_zero, sub_zero]
  exact ⟨rfl, rfl⟩

theorem encode_impulse_output_witness :
    (fun _ => (0 : ℚ)) 1023 = 0 ∧
    (leftOut (fun _ => 0) (impulseState (fun _ => 0)) zeroCh zeroCh zeroCh bufferLineSize 0
        = cSW * (1 / 2)
    ∧ rightOut (fun _ => 0) (impulseState (fun _ => 0)) zeroCh zeroCh zeroCh bufferLineSize 0
        = cSW * (1 / 2)) :=
  ⟨rfl, encode_impulse_output (fun _ => 0) rfl⟩

/-- Claim C9: under `SamplesToDo ≤ BufferLineSize`, every array access of
`UhjEncoder::encode` is in bounds, so the embedding's out-of-bounds branch is
unreachable and the call produces its result. -/
theorem encode_in_bounds (taps : ℕ → ℚ) (st : UhjEncoderState) (W X Y : ℕ → ℚ)
    (n : ℕ) (hn : n ≤ bufferLineSize) :
    encode taps st W X Y n = some (encodeResult taps st W X Y n) :=
  encode_eq_some taps st W X Y n hn

theorem encode_in_bounds_witness :
    (1024 : ℕ) ≤ bufferLineSize ∧
    encode (fun _ => 0) initState (fun _ => 0) (fun _ => 0) (fun _ => 0) 1024
      = some (encodeResult (fun _ => 0) initState (fun _ => 0) (fun _ => 0) (fun _ => 0) 1024) :=
  ⟨by norm_num [bufferLineSize],
    encode_in_bounds (fun _ => 0) initState (fun _ => 0) (fun _ => 0) (fun _ => 0) 1024
      (by norm_num [bufferLineSize])⟩

theorem deg2Rad_thirty : deg2Rad 30 = Real.pi / 6 := by
  unfold deg2Rad; ring

theorem deg2Rad_neg_thirty : deg2Rad (-30) = -(Real.pi / 6) := by
  unfold deg2Rad; ring

theorem deg2Rad_zero : deg2Rad 0 = 0 := by
  unfold deg2Rad; ring

theorem stereoLeft_c2 : stereoLeftCoeffs.c2 = (fumaScale : ℝ) * (1 / 2) := by
  unfold stereoLeftCoeffs speakerCoeffs genCoeffs
  rw [deg2Rad_thirty, deg2Rad_zero, Real.cos_zero, Real.sin_pi_div_six]
  norm_num

theorem stereoRight_c2 : stereoRightCoeffs.c2 = -((fumaScale : ℝ) * (1 / 2)) := by
  unfold stereoRightCoeffs speakerCoeffs genCoeffs
  rw [deg2Rad_neg_thirty, deg2Rad_zero, Real.cos_zero, Real.sin_neg,
    Real.sin_pi_div_six]
  norm_num

theorem stereoLeft_c1 : stereoLeftCoeffs.c1
    = (fumaScale : ℝ) * (Real.sqrt 3 / 2) := by
  unfold stereoLeftCoeffs speakerCoeffs genCoeffs
  rw [deg2Rad_thirty, deg2Rad_zero, Real.cos_zero, Real.cos_pi_div_six]
  norm_num

theorem stereoRight_c1 : stereoRightCoeffs.c1
    = (fumaScale : ℝ) * (Real.sqrt 3 / 2) := by
  unfold stereoRightCoeffs speakerCoeffs genCoeffs
  rw [deg2Rad_neg_thirty, deg2Rad_zero, Real.cos_zero, Real.cos_neg,
    Real.cos_pi_div_six]
  norm_num

/-- Claim C8 counterexample: at the concrete right stereo speaker
(azimuth `-30°`, elevation `0`) the generated `coeffs[1]` (X gain) is NOT
negative — it is `1.41421356237·cos(-30°) > 0` — refuting the claimed
`coeffs[1] < 0` for the right speaker. -/
theorem stereo_xgain_claim_false : ¬ stereoRightCoeffs.c1 < 0 := by
  rw [stereoRight_c1]
  refine not_lt.mpr (mul_nonneg ?_ ?_)
  · norm_num [fumaScale]
  · positivity

/-- Claim C8 (amended): for the stereo layout at azimuth `±30°`, elevation 0,
it is `coeffs[2]` (the Y gain) that satisfies `> 0` for the left speaker and
`< 0` for the right, with equal magnitude; `coeffs[1]` (the X gain) is the
same strictly positive value for both speakers. -/
theorem stereo_ygain_signs :
    0 < stereoLeftCoeffs.c2
    ∧ stereoRightCoeffs.c2 < 0
    ∧ stereoLeftCoeffs.c2 = -stereoRightCoeffs.c2
    ∧ stereoLeftCoeffs.c1 = stereoRightCoeffs.c1
    ∧ 0 < stereoLeftCoeffs.c1 := by
  have hpos : (0 : ℝ) < (fumaScale : ℝ) * (1 / 2) := by
    norm_num [fumaScale]
  refine ⟨?_, ?_, ?_, ?_, ?_⟩
  · rw [stereoLeft_c2]; exact hpos
  · rw [stereoRight_c2]; exact neg_lt_zero.mpr hpos
  · rw [stereoLeft_c2, stereoRight_c2, neg_neg]
  · rw [stereoLeft_c1, stereoRight_c1]
  · rw [stereoLeft_c1]
    have h3 : (0 : ℝ) < Real.sqrt 3 / 2 := by positivity
    exact mul_pos (by norm_num [fumaScale]) h3

end Uhj

namespace Pw

theorem foldl_min_le (l : List ℕ) (a : ℕ) : ∀ x ∈ a :: l, l.foldl min a ≤ x := by
  induction l generalizing a with
  | nil =>
    intro x hx
    rw [List.mem_singleton] at hx
    exact hx ▸ le_refl a
  | cons b bs ih =>
    intro x hx
    rw [List.foldl_cons]
    have hhead := ih (min a b) (min a b) (List.mem_cons_self _ _)
    rcases List.mem_cons.mp hx with h1 | hx2
    · rw [h1]; exact le_trans hhead (min_le_left _ _)
    · rcases List.mem_cons.mp hx2 with h2 | h3
      · rw [h2]; exact le_trans hhead (min_le_right _ _)
      · exact ih (min a b) x (List.mem_cons_of_mem _ h3)

theorem foldl_min_mem (l : List ℕ) (a : ℕ) : l.foldl min a ∈ a :: l := by
  induction l generalizing a with
  | nil => exact List.mem_singleton.mpr rfl
  | cons b bs ih =>
    rw [List.foldl_cons]
    rcases List.mem_cons.mp (ih (min a b)) with h1 | h2
    · rcases min_choice a b with hm | hm
      · exact List.mem_cons.mpr (Or.inl (h1.trans hm))
      · exact List.mem_cons_of_mem a (List.mem_cons.mpr (Or.inl (h1.trans hm)))
    · exact List.mem_cons_of_mem a (List.mem_cons_of_mem b h2)

/-- Claim C4 counterexample: with a rate-match hint of 100 frames, an update
size of 50 frames and one channel of 1000-frame capacity, the callback
renders 100 frames, not the three-way minimum 50: the update size does not
participate when a rate-match area is set. -/
theorem outputFrameCount_not_three_way_min :
    ¬ outputFrameCount (some 100) 50 1 [4000] = min 100 (min 50 (4000 / 4)) := by
  decide

/-- Claim C4 (amended): the rendered frame count is the minimum of the
starting length — the server-hinted rate-match size if a rate-match area is
set, otherwise the configured update size — together with the per-channel
capacities `maxsize/sizeof(float)` of the used channels (the first
`min(numChannels, n_datas)` of them). -/
theorem outputFrameCount_is_min (rateMatch : Option ℕ) (updateSize numChannels : ℕ)
    (maxsizes : List ℕ) :
    outputFrameCount rateMatch updateSize numChannels maxsizes
        ∈ rateMatch.getD updateSize
          :: (maxsizes.take (min numChannels maxsizes.length)).map (fun m => m / 4)
    ∧ ∀ x ∈ rateMatch.getD updateSize
          :: (maxsizes.take (min numChannels maxsizes.length)).map (fun m => m / 4),
        outputFrameCount rateMatch updateSize numChannels maxsizes ≤ x :=
  ⟨foldl_min_mem _ _, foldl_min_le _ _⟩

theorem outputFrameCount_is_min_witness :
    (100 : ℕ) ∈ (some 100 : Option ℕ).getD 50
        :: (([4000] : List ℕ).take (min 1 ([4000] : List ℕ).length)).map (fun m => m / 4)
    ∧ outputFrameCount (some 100) 50 1 [4000] ≤ 100 :=
  ⟨by decide, (outputFrameCount_is_min (some 100) 50 1 [4000]).2 100 (by decide)⟩

/-- Claim C5: `getClockLatency` always returns a non-negative latency; when a
tick report exists (`rate.denom ≥ 1`) it equals
`serverDelay + max(0, mixTime - streamTickTime) - (now - lastTickWallClock)`
floored at zero, with `streamTickTime` including the accumulated time base;
before any tick report (`rate.denom < 1`) the delay falls back to
`BufferSize/Frequency`. -/
theorem getClockLatency_spec (ptime : PwTimeInfo) (mixtime monoclock timeBase : ℤ)
    (bufferSize frequency : ℕ) :
    0 ≤ (getClockLatency ptime mixtime monoclock timeBase bufferSize frequency).Latency
    ∧ (1 ≤ ptime.rateDenom →
        (getClockLatency ptime mixtime monoclock timeBase bufferSize frequency).Latency
          = max 0 (serverDelayNs ptime
              + max 0 (mixtime - streamTickNs timeBase ptime)
              - (monoclock - ptime.now)))
    ∧ (ptime.rateDenom < 1 →
        (getClockLatency ptime mixtime monoclock timeBase bufferSize frequency).Latency
          = ((bufferSize : ℤ) * nsPerSec).tdiv (frequency : ℤ)) := by
  refine ⟨le_max_right _ _, ?_, ?_⟩
  · intro hden
    have hcur : adjCurtic ptime mixtime timeBase = streamTickNs timeBase ptime := by
      unfold adjCurtic; exact if_neg (by omega)
    have hdel : adjDelay ptime bufferSize frequency = serverDelayNs ptime := by
      unfold adjDelay; exact if_neg (by omega)
    have hnow : adjNow ptime monoclock = ptime.now := by
      unfold adjNow; exact if_neg (by omega)
    unfold getClockLatency
    simp only
    rw [hcur, hdel, hnow]
    rcases le_or_lt mixtime (streamTickNs timeBase ptime) with hle | hlt
    · rw [if_neg (not_lt.mpr hle),
        max_eq_left (by omega : mixtime - streamTickNs timeBase ptime ≤ 0),
        add_zero, max_comm]
    · rw [if_pos hlt,
        max_eq_right (by omega : (0 : ℤ) ≤ mixtime - streamTickNs timeBase ptime),
        max_comm]
  · intro hden
    have hcur : adjCurtic ptime mixtime timeBase = mixtime := by
      unfold adjCurtic; exact if_pos hden
    have hdel : adjDelay ptime bufferSize frequency
        = ((bufferSize : ℤ) * nsPerSec).tdiv (frequency : ℤ) := by
      unfold adjDelay; exact if_pos hden
    have hnow : adjNow ptime monoclock = monoclock := by
      unfold adjNow; exact if_pos hden
    unfold getClockLatency
    simp only
    rw [hcur, hdel, hnow, if_neg (lt_irrefl mixtime), sub_self, sub_zero]
    exact max_eq_left (Int.tdiv_nonneg
      (mul_nonneg (Int.natCast_nonneg _) (by norm_num [nsPerSec]))
      (Int.natCast_nonneg _))

theorem getClockLatency_spec_witness :
    (1 : ℤ) ≤ ptimeSample.rateDenom ∧
    (getClockLatency ptimeSample 500 2000 0 1024 48000).Latency
      = max 0 (serverDelayNs ptimeSample
          + max 0 (500 - streamTickNs 0 ptimeSample) - (2000 - ptimeSample.now)) :=
  ⟨by norm_num [ptimeSample],
   (getClockLatency_spec ptimeSample 500 2000 0 1024 48000).2.1
     (by norm_num [ptimeSample])⟩

/-- Claim C6: with an explicitly given name that matches no registry entry of
the session's direction — and, for capture, also no playback entry through
the synthesized `"Monitor of <sink name>"` form — `open` fails with
`NoDevice` and returns the shared registry state (`DeviceList`,
`DefaultSinkDev`, `DefaultSourceDev`) unchanged. -/
theorem open_unknown_name_fails (reg : Registry) (name : Str) :
    ((∀ n ∈ reg.deviceList, n.mCapture = false → n.mName ≠ name) →
      playbackOpenName reg name = (.error .NoDevice, reg))
    ∧ ((∀ n ∈ reg.deviceList, n.mCapture = true → n.mName ≠ name) →
        (∀ n ∈ reg.deviceList, n.mCapture = false → name ≠ monitorOf ++ n.mName) →
        captureOpenName reg name = (.error .NoDevice, reg)) := by
  constructor
  · intro h
    unfold playbackOpenName
    have hf : reg.deviceList.find? (playbackMatchName name) = none := by
      rw [List.find?_eq_none]
      intro n hn hmatch
      unfold playbackMatchName at hmatch
      rw [Bool.and_eq_true, Bool.not_eq_true', beq_iff_eq] at hmatch
      exact h n hn hmatch.1 hmatch.2
    rw [hf]
  · intro h1 h2
    unfold captureOpenName
    have hf1 : reg.deviceList.find? (captureMatchName name) = none := by
      rw [List.find?_eq_none]
      intro n hn hmatch
      unfold captureMatchName at hmatch
      rw [Bool.and_eq_true, beq_iff_eq] at hmatch
      exact h1 n hn hmatch.1 hmatch.2
    rw [hf1]
    by_cases hpre : (name.take monitorOf.length == monitorOf) = true
    · have hf2 : reg.deviceList.find? (monitorSinkMatch name) = none := by
        rw [List.find?_eq_none]
        intro n hn hmatch
        unfold monitorSinkMatch at hmatch
        rw [Bool.and_eq_true, Bool.not_eq_true', beq_iff_eq] at hmatch
        refine h2 n hn hmatch.1 ?_
        have htake : name.take monitorOf.length = monitorOf := beq_iff_eq.mp hpre
        calc name = name.take monitorOf.length ++ name.drop monitorOf.length :=
              (List.take_append_drop _ _).symm
          _ = monitorOf ++ n.mName := by rw [htake, ← hmatch.2]
      rw [if_pos hpre, hf2]
    · rw [if_neg hpre]

theorem open_unknown_name_fails_witness :
    playbackOpenName regSample nameNope = (.error .NoDevice, regSample)
    ∧ captureOpenName regSample nameNope = (.error .NoDevice, regSample) :=
  ⟨(open_unknown_name_fails regSample nameNope).1 (by decide),
   (open_unknown_name_fails regSample nameNope).2 (by decide) (by decide)⟩

/-- Claim C7: on an Int-typed sample-rate event, a `SPA_CHOICE_None` single
value or a `SPA_CHOICE_Range` default/min/max triple stores the default
clamped into the supported interval; a `SPA_CHOICE_Enum` list stores the
first listed value inside the interval, the declared default (`vals[0]`)
being considered first, and leaves the node unchanged when no listed value
is in the interval. -/
theorem parse_srate_spec (lo hi : ℤ) (h0 : 0 ≤ lo) (hlh : lo ≤ hi)
    (node : DeviceNode) :
    (∀ d : ℤ, ((parse_srate lo hi node (.choiceNone [d])).mSampleRate : ℤ)
        = clampi d lo hi)
    ∧ (∀ d mn mx : ℤ,
        ((parse_srate lo hi node (.choiceRange [d, mn, mx])).mSampleRate : ℤ)
          = clampi d lo hi)
    ∧ (∀ d : ℤ, ∀ rest : List ℤ, lo ≤ d → d ≤ hi →
        parse_srate lo hi node (.choiceEnum (d :: rest))
          = { node with mSampleRate := d.toNat })
    ∧ (∀ vals : List ℤ, ∀ r : ℤ, vals.find? (inRate lo hi) = some r →
        parse_srate lo hi node (.choiceEnum vals)
          = { node with mSampleRate := r.toNat })
    ∧ (∀ vals : List ℤ, vals.find? (inRate lo hi) = none →
        parse_srate lo hi node (.choiceEnum vals) = node) := by
  have hc : ∀ d : ℤ, (((clampi d lo hi).toNat : ℕ) : ℤ) = clampi d lo hi := fun d =>
    Int.toNat_of_nonneg (by unfold clampi; omega)
  refine ⟨?_, ?_, ?_, ?_, ?_⟩
  · intro d
    simp only [parse_srate]
    rw [if_neg (by norm_num)]
    exact hc d
  · intro d mn mx
    simp only [parse_srate]
    rw [if_neg (by norm_num)]
    exact hc d
  · intro d rest hld hdh
    simp only [parse_srate]
    rw [if_neg (by simp)]
    rw [List.find?_cons_of_pos _ (by
      unfold inRate
      rw [Bool.and_eq_true]
      exact ⟨decide_eq_true hld, decide_eq_true hdh⟩)]
  · intro vals r hfind
    cases vals with
    | nil => simp at hfind
    | cons v vs =>
      simp only [parse_srate]
      rw [if_neg (by simp), hfind]
  · intro vals hfind
    cases vals with
    | nil => rfl
    | cons v vs =>
      simp only [parse_srate]
      rw [if_neg (by simp), hfind]

theorem parse_srate_spec_witness :
    (0 : ℤ) ≤ 8000 ∧ (8000 : ℤ) ≤ 96000 ∧
    ((parse_srate 8000 96000 nodeSpeaker (.choiceNone [192000])).mSampleRate : ℤ)
      = clampi 192000 8000 96000 :=
  ⟨by norm_num, by norm_num,
   (parse_srate_spec 8000 96000 (by norm_num) (by norm_num) nodeSpeaker).1 192000⟩

theorem mem_nonDefault_or_find {α : Type} (p : α → Bool) (l : List α) (x : α)
    (hx : x ∈ l) : x ∈ nonDefault p l ∨ l.find? p = some x := by
  induction l with
  | nil => cases hx
  | cons a as ih =>
    unfold nonDefault
    by_cases hpa : p a = true
    · rw [if_pos hpa, List.find?_cons_of_pos _ hpa]
      rcases List.mem_cons.mp hx with h1 | h2
      · right; rw [h1]
      · left; exact h2
    · rw [if_neg hpa, List.find?_cons_of_neg _ (by simpa using hpa)]
      rcases List.mem_cons.mp hx with h1 | h2
      · left; exact h1 ▸ List.mem_cons_self _ _
      · rcases ih h2 with h3 | h3
        · left; exact List.mem_cons_of_mem a h3
        · right; exact h3

theorem sortById_sorted (l : List DeviceNode) : List.Sorted byId (sortById l) :=
  List.sorted_insertionSort byId l

/-- Claim C10: `probe` mutates the shared registry by sorting `DeviceList`
in place into ascending id order (the list after `probe` is a permutation of
the list before, sorted by `mId`), while `open` only reads the list; the
returned name list gives the default device first, and for the capture
direction contains a `"Monitor of "` pseudo-device name for every playback
device. -/
theorem probe_spec (reg : Registry) (t : BackendType) :
    ((probe reg t).2.deviceList).Perm reg.deviceList
    ∧ List.Sorted byId (probe reg t).2.deviceList
    ∧ (∀ name, (playbackOpenName reg name).2 = reg)
    ∧ (∀ name, (captureOpenName reg name).2 = reg)
    ∧ (∀ n, (sortById reg.deviceList).find? (fun m => m.mDevName == reg.defaultSinkDev)
          = some n → (probe reg .Playback).1.head? = some n.mName)
    ∧ (∀ n, (sortById reg.deviceList).find? (fun m => m.mDevName == reg.defaultSourceDev)
          = some n → (probe reg .Capture).1.head?
            = some (if n.mCapture then n.mName else monitorOf ++ n.mName))
    ∧ (∀ n ∈ sortById reg.deviceList, n.mCapture = false →
        (monitorOf ++ n.mName) ∈ (probe reg .Capture).1) := by
  refine ⟨List.perm_insertionSort _ _, sortById_sorted _, fun _ => rfl, fun _ => rfl,
    ?_, ?_, ?_⟩
  · intro n h
    show (playbackProbeNames (sortById reg.deviceList) reg.defaultSinkDev).head?
      = some n.mName
    unfold playbackProbeNames
    rw [h]
    rfl
  · intro n h
    show (captureProbeNames (sortById reg.deviceList) reg.defaultSourceDev).head?
      = some (if n.mCapture then n.mName else monitorOf ++ n.mName)
    unfold captureProbeNames
    rw [h]
    by_cases hcap : n.mCapture = true
    · simp only [defaultSourceEntry, if_pos hcap]
      rfl
    · simp only [defaultSourceEntry, if_neg hcap]
      rfl
  · intro n hn hcap
    show monitorOf ++ n.mName
      ∈ captureProbeNames (sortById reg.deviceList) reg.defaultSourceDev
    unfold captureProbeNames
    rcases mem_nonDefault_or_find (fun m => m.mDevName == reg.defaultSourceDev)
        (sortById reg.deviceList) n hn with hnd | hfind
    · refine List.mem_append_right _ ?_
      exact List.mem_map.mpr ⟨n, List.mem_filter.mpr ⟨hnd, by rw [hcap]; rfl⟩, rfl⟩
    · rw [hfind]
      refine List.mem_append_left _ (List.mem_append_left _ ?_)
      simp only [defaultSourceEntry, hcap]
      exact List.mem_singleton.mpr rfl

theorem probe_spec_witness :
    (probe regSample .Playback).1.head? = some nodeSpeaker.mName
    ∧ (probe regSample .Capture).1.head?
        = some (if nodeMic.mCapture then nodeMic.mName else monitorOf ++ nodeMic.mName)
    ∧ (probe regMonitor .Capture).1.head?
        = some (if nodeSpeaker.mCapture then nodeSpeaker.mName
            else monitorOf ++ nodeSpeaker.mName)
    ∧ (monitorOf ++ nodeSpeaker.mName) ∈ (probe regSample .Capture).1 :=
  ⟨(probe_spec regSample .Playback).2.2.2.2.1 nodeSpeaker (by decide),
   (probe_spec regSample .Capture).2.2.2.2.2.1 nodeMic (by decide),
   (probe_spec regMonitor .Capture).2.2.2.2.2.1 nodeSpeaker (by decide),
   (probe_spec regSample .Capture).2.2.2.2.2.2 nodeSpeaker (by decide) rfl⟩

end Pw
